import Mathlib

/-!
# Verification of the `use-form-field` form store (`src/index.js`)

A shallow embedding of the form-state container from `src/index.js`:
the publish/subscribe bus (`on`/`emit`), the store state (`values`,
`properties`, `errors`, `schema`) with its mutators (`set`, `setField`,
`setFieldMeta`, `setErrors`), the validation pipeline (`validate`), and
the field-level projection (`useFormField`'s returned `value`/`ref`).

JavaScript objects are modelled as association lists in insertion order
(`Obj α`); JavaScript values as `JSVal` (primitives plus objects carried
by identity with their shallow primitive fields). Mutators return the
updated state together with a trace of the events they emitted, which
makes the emission-gating invariants directly statable.
-/

/-- A JavaScript primitive value. `NaN` is its own constructor because it
is not `===`-equal to itself. Numbers are modelled as integers (no claim
under verification depends on non-integral arithmetic). -/
inductive JSPrim where
  | undef
  | jsNull
  | nan
  | bool (b : Bool)
  | num (n : Int)
  | str (s : String)
deriving DecidableEq, Repr

/-- A JavaScript value: a primitive, or an object carried by reference
identity `id` together with its shallow own-enumerable fields (field
values restricted to primitives; no verified claim inspects nested
objects). Lean equality on `obj` compares ids, matching `===`. -/
inductive JSVal where
  | prim (p : JSPrim)
  | obj (id : Nat) (fields : List (String × JSPrim))
deriving DecidableEq, Repr

/-- JavaScript truthiness of a primitive: `undefined`, `null`, `NaN`,
`false`, `0` and `""` are falsy, everything else truthy. -/
def truthyPrim : JSPrim → Bool
  | .undef => false
  | .jsNull => false
  | .nan => false
  | .bool b => b
  | .num n => n != 0
  | .str s => s != ""

/-- JavaScript truthiness: objects are always truthy. -/
def jsTruthy : JSVal → Bool
  | .prim p => truthyPrim p
  | .obj _ _ => true

/-- JavaScript strict equality `===` on primitives: `NaN` is unequal to
everything (itself included); other primitives compare by value. -/
def primJsEq : JSPrim → JSPrim → Bool
  | .nan, _ => false
  | _, .nan => false
  | p, q => p == q

/-- JavaScript strict equality `===` on values: primitives by
`primJsEq`, objects by reference identity. -/
def jsEq : JSVal → JSVal → Bool
  | .prim p, .prim q => primJsEq p q
  | .obj i _, .obj j _ => i == j
  | _, _ => false

/-- A JavaScript object keyed by strings, in insertion order. -/
abbrev Obj (α : Type) := List (String × α)

/-- Property read `o[k]`: the first binding of `k` (our construction
keeps keys unique, mirroring JS objects). -/
def objGet {α : Type} : Obj α → String → Option α
  | [], _ => none
  | (k, v) :: t, key => if k = key then some v else objGet t key

/-- Property write `o[k] = v` / computed-key spread: an existing key
keeps its position and is overwritten; a new key is appended. This is
exactly JS object assignment in insertion order (JS objects cannot hold
a key twice, and every `Obj` built by these operations keeps keys
unique). -/
def objSet {α : Type} : Obj α → String → α → Obj α
  | [], k, v => [(k, v)]
  | (a, b) :: t, k, v =>
    if a = k then (k, v) :: t else (a, b) :: objSet t k v

/-- Object spread `{...a, ...b}`. -/
def objMerge {α : Type} (a b : Obj α) : Obj α :=
  b.foldl (fun acc e => objSet acc e.1 e.2) a

/-- `Object.keys`-style own-enumerable shallow fields of a JS value, as
used by the `shallow-equal` dependency: objects expose their fields,
strings their indexed characters, other primitives nothing. -/
def jsKeys : JSVal → Obj JSPrim
  | .prim (.str s) =>
      (List.range s.length).map
        (fun i => (toString i, JSPrim.str (String.mk [s.toList.getD i ' '])))
  | .prim _ => []
  | .obj _ fs => fs

/-- The `shallowEqualObjects` utility from the external `shallow-equal`
dependency (modelled from its documented behaviour, the dependency not
being part of this repository): `===`-equal values are equal; otherwise
a falsy argument makes them unequal; otherwise the own-enumerable keys
must agree in number and carry `===`-equal values. -/
def shallowEqualObjects (a b : JSVal) : Bool :=
  jsEq a b ||
    (jsTruthy a && jsTruthy b &&
      (let ka := jsKeys a
       let kb := jsKeys b
       ka.length == kb.length &&
         ka.all (fun e => primJsEq e.2 ((objGet kb e.1).getD .undef))))

/-- `shallowEqualObjects` specialised to the string-valued `errors` map
(`setErrors`' gate): equal key count and, for each key of `a`, an equal
value in `b`. String values make the `===` field comparison plain
equality. -/
def shallowEqualStrMap (a b : Obj String) : Bool :=
  a.length == b.length && a.all (fun e => objGet b e.1 == some e.2)

/-- The post-validation record `{ value, error, meta }` that `setField`
returns and passes to a function-typed `shouldValidate`. `error` is
`errors[field]` (possibly `undefined`, hence `Option`), `meta` is
`properties[field]`. -/
structure FieldResult where
  value : JSVal
  error : Option String
  meta : Option (Obj JSVal)
deriving DecidableEq, Repr

/-- An observable effect of a store operation: a bus emission on one of
the three topics, or the invocation of a function-typed `shouldValidate`
completion hook (identified by `cb`) with its argument record. -/
inductive Event where
  | valuesE (payload : Obj JSVal)
  | propertiesE (payload : Obj (Obj JSVal))
  | errorsE (payload : Obj String)
  | hookE (cb : Nat) (arg : FieldResult)
deriving DecidableEq, Repr

/-- Is this trace entry a `shouldValidate` hook invocation (as opposed
to a topic emission)? -/
def Event.isHook : Event → Bool
  | .hookE _ _ => true
  | _ => false

/-- The outcome of the external validator capability
(`schema.validate(values, { abortEarly: false })`): resolution, or
rejection with an optional `inner` list of `{ path, message }`
sub-errors (a malformed failure object lacks the list). -/
inductive VOutcome where
  | ok
  | fail (inner : Option (List (String × String)))

/-- The schema capability: `schema.validate` may be absent (the schema
then lacks a validation capability). The function abstracts the awaited
`schema.validate(values, { abortEarly: false })` call as a function of
the values it was invoked on. -/
structure SchemaObj where
  validate : Option (Obj JSVal → VOutcome)

/-- The form store's internal state: `values`, `properties`, `errors`
and the live `schema` reference from `createFormStore`. (The `handlers`
map is modelled separately by the `Bus` namespace; store operations
report their emissions as an `Event` trace instead.) -/
structure StoreState where
  values : Obj JSVal
  properties : Obj (Obj JSVal)
  errors : Obj String
  schema : Option SchemaObj

namespace FormStore

/-- `values[field]` as JavaScript sees it: `undefined` when absent. -/
def jsIndex (o : Obj JSVal) (k : String) : JSVal :=
  (objGet o k).getD (.prim .undef)

/-- `properties[field] && properties[field][property]`: the current
value of one metadata property, `undefined` when the field or the
property is absent. -/
def metaValueAt (st : StoreState) (field prop : String) : JSVal :=
  ((objGet st.properties field).bind (fun m => objGet m prop)).getD (.prim .undef)

/-- `setFieldMeta(field, property, nextValue)`: if the property's
current value is not `shallowEqualObjects`-equal to `nextValue`, replace
the field's metadata object by `{ ...properties[field], [property]:
nextValue }` and emit `"properties"` with `{ [field]: <new metadata> }`;
otherwise do nothing. -/
def setFieldMeta (st : StoreState) (field prop : String) (nextValue : JSVal) :
    StoreState × List Event :=
  if shallowEqualObjects (metaValueAt st field prop) nextValue then
    (st, [])
  else
    let newMeta := objSet ((objGet st.properties field).getD []) prop nextValue
    ({ st with properties := objSet st.properties field newMeta },
     [Event.propertiesE [(field, newMeta)]])

/-- `setErrors(nextErrors)`: replace `errors` wholesale and emit
`"errors"` with `nextErrors` unless the new map is shallow-equal to the
current one. -/
def setErrors (st : StoreState) (nextErrors : Obj String) :
    StoreState × List Event :=
  if shallowEqualStrMap st.errors nextErrors then
    (st, [])
  else
    ({ st with errors := nextErrors }, [Event.errorsE nextErrors])

/-- The reduction of the rejection's `inner` list into the error map:
`(result.inner || []).reduce((acc, e) => ({ ...acc, [e.path]:
e.message }), {})` — later entries overwrite earlier ones. -/
def reduceErrors (inner : List (String × String)) : Obj String :=
  inner.foldl (fun acc e => objSet acc e.1 e.2) []

/-- `validate()`: `undefined` unless `schema && schema.validate`;
otherwise await the validator on the current values. On resolution,
clear the errors through `setErrors({})` when `Object.keys(errors).length`
is non-zero and return `{}`. On rejection, reduce `result.inner || []`
into `nextErrors`, pass it through `setErrors` unless shallow-equal to
the current errors, and return `nextErrors`. The surrounding
`try`/`catch` spans the whole awaited call, so a rejection never escapes:
the embedding is a total function. -/
def validate (st : StoreState) :
    Option (Obj String) × StoreState × List Event :=
  match st.schema with
  | none => (none, st, [])
  | some sch =>
    match sch.validate with
    | none => (none, st, [])
    | some vf =>
      match vf st.values with
      | .ok =>
        if st.errors.length ≠ 0 then
          (some [], (setErrors st []).1, (setErrors st []).2)
        else
          (some [], st, [])
      | .fail inner =>
        let nextErrors := reduceErrors (inner.getD [])
        if shallowEqualStrMap st.errors nextErrors then
          (some nextErrors, st, [])
        else
          (some nextErrors, (setErrors st nextErrors).1,
           (setErrors st nextErrors).2)

/-- The dual-purpose `shouldValidate` argument of `setField`: a boolean
validation switch, or a post-validation completion hook (a function,
identified by `cb`). -/
inductive SV where
  | flag (b : Bool)
  | fn (cb : Nat)

/-- JavaScript truthiness of `shouldValidate`: functions are truthy. -/
def svTruthy : SV → Bool
  | .flag b => b
  | .fn _ => true

/-- The state after the plain write `values[field] = value`. -/
def writeValue (st : StoreState) (field : String) (value : JSVal) : StoreState :=
  { st with values := objSet st.values field value }

/-- `setField(field, value, shouldValidate)`: a no-op returning
`undefined` when `values[field] === value`. Otherwise write the value,
emit `"values"` with `{ [field]: value }`, await `validate()` when
`shouldValidate` is truthy, then — when `shouldValidate` is a function —
invoke it with `{ value, error: errors[field], meta: properties[field] }`
and return that same record. -/
def setField (st : StoreState) (field : String) (value : JSVal)
    (shouldValidate : SV) :
    Option FieldResult × StoreState × List Event :=
  if jsEq (jsIndex st.values field) value then
    (none, st, [])
  else
    let st1 := writeValue st field value
    let after : StoreState × List Event :=
      if svTruthy shouldValidate then
        ((validate st1).2.1, (validate st1).2.2)
      else
        (st1, [])
    let res : FieldResult :=
      ⟨value, objGet after.1.errors field, objGet after.1.properties field⟩
    let trHook : List Event :=
      match shouldValidate with
      | .fn cb => [Event.hookE cb res]
      | .flag _ => []
    (some res, after.1, Event.valuesE [(field, value)] :: (after.2 ++ trHook))

/-- `set(nextValues)`: shallow-merge into `values` unconditionally and
emit `"values"` with exactly `nextValues` (the delta). -/
def set (st : StoreState) (nextValues : Obj JSVal) : StoreState × List Event :=
  ({ st with values := objMerge st.values nextValues },
   [Event.valuesE nextValues])

/-- `setSchema(nextSchema)`: replace the schema and fire a `validate()`
pass, discarding its result. -/
def setSchema (st : StoreState) (nextSchema : Option SchemaObj) :
    StoreState × List Event :=
  ((validate { st with schema := nextSchema }).2.1,
   (validate { st with schema := nextSchema }).2.2)

/-- The store state reached by `setField`'s write-then-validate path. -/
def validatedState (st : StoreState) (field : String) (value : JSVal) :
    StoreState :=
  (validate (writeValue st field value)).2.1

/-- The `{ value, error, meta }` record observed after `setField`'s
validation pass settles. -/
def fieldResultAfter (st : StoreState) (field : String) (value : JSVal) :
    FieldResult :=
  ⟨value, objGet (validatedState st field value).errors field,
   objGet (validatedState st field value).properties field⟩

end FormStore

namespace Bus

/-- The store's `handlers` map: topic name to the ordered list of
registered callbacks. Callbacks are identified by `Nat` ids standing for
JavaScript function identity (`!==` compares these ids). -/
abbrev Handlers := Obj (List Nat)

/-- `on(name, cb)`: `(handlers[name] || (handlers[name] = [])).push(cb)`
— append the callback to the topic's list, creating it if absent. (The
source calls this `on`; that word is a reserved notation token here.) -/
def onCb (h : Handlers) (name : String) (cb : Nat) : Handlers :=
  objSet h name (((objGet h name).getD []) ++ [cb])

/-- The unsubscribe closure returned by `on(name, cb)`:
`handlers[name] = handlers[name].filter(i => i !== cb)` — rebinds the
topic to a fresh array keeping the callbacks not identical to `cb`. -/
def unsub (h : Handlers) (name : String) (cb : Nat) : Handlers :=
  objSet h name (((objGet h name).getD []).filter (fun i => i != cb))

/-- Run a snapshot of callbacks left to right, threading the handlers
state through each invocation (`effect cb data` is whatever the callback
does to the handlers — subscribe, unsubscribe, nothing) and logging each
invocation with its payload. -/
def runCbs {π : Type} (effect : Nat → π → Handlers → Handlers) (data : π) :
    List Nat → Handlers → Handlers × List (Nat × π)
  | [], h => (h, [])
  | cb :: rest, h =>
    let h1 := effect cb data h
    let r := runCbs effect data rest h1
    (r.1, (cb, data) :: r.2)

/-- `emit(name, data)`: `(handlers[name] || []).forEach(cb => cb(data))`.
`forEach` iterates the array bound to `handlers[name]` when the call
begins; an unsubscribe during the emission rebinds `handlers[name]` to a
new array and a subscribe appends past the cached length, so neither
affects the snapshot being iterated. -/
def emitRun {π : Type} (effect : Nat → π → Handlers → Handlers)
    (h : Handlers) (name : String) (data : π) :
    Handlers × List (Nat × π) :=
  runCbs effect data ((objGet h name).getD []) h

end Bus

/-- A heap of JavaScript objects with `α`-valued properties, addressed
by reference (list index); `alloc` appends, so every allocated reference
is fresh. This refines the object model to make aliasing — and hence the
copy semantics of `get`/`getErrors`/`getProperties` — expressible. -/
structure Heap (α : Type) where
  objs : List (Obj α)

namespace Heap

/-- Allocate a new object with the given contents; returns the heap and
the fresh reference. -/
def alloc {α : Type} (h : Heap α) (contents : Obj α) : Heap α × Nat :=
  (⟨h.objs ++ [contents]⟩, h.objs.length)

/-- Read the object behind a reference. -/
def readRef {α : Type} (h : Heap α) (r : Nat) : Obj α :=
  (h.objs[r]?).getD []

/-- Replace the object behind a reference. -/
def writeRef {α : Type} (h : Heap α) (r : Nat) (o : Obj α) : Heap α :=
  ⟨h.objs.set r o⟩

/-- `o[k] = v` on the object behind `r`: add or reassign a top-level
key in place. -/
def setKey {α : Type} (h : Heap α) (r : Nat) (k : String) (v : α) : Heap α :=
  writeRef h r (objSet (readRef h r) k v)

/-- `delete o[k]` on the object behind `r`: remove a top-level key in
place. -/
def delKey {α : Type} (h : Heap α) (r : Nat) (k : String) : Heap α :=
  writeRef h r ((readRef h r).filter (fun e => e.1 != k))

/-- The getters `get`/`getErrors`/`getProperties`, each of which is
`() => ({ ...m })` for its internal map `m` (behind `storeRef` here):
allocate a fresh object holding a shallow copy of the internal one and
return its reference. -/
def getOp {α : Type} (h : Heap α) (storeRef : Nat) : Heap α × Nat :=
  alloc h (readRef h storeRef)

end Heap

/-- The slice of `useFormField`'s returned record under verification:
the exposed `value` and the `ref` handle (whose `current` holds the
cached field value). -/
structure FieldView where
  value : JSVal
  ref : JSVal
deriving DecidableEq, Repr

/-- The field-level projection of `useFormField` over the cached current
value of the field: it returns `value: value.current || ""` together
with the ref handle exposing `value.current` itself. -/
def useFormField (cachedValue : JSVal) : FieldView :=
  { value := if jsTruthy cachedValue then cachedValue else .prim (.str ""),
    ref := cachedValue }

/-! ## Basic lemmas about the object operations -/

theorem objGet_objSet {α : Type} (o : Obj α) (k : String) (v : α)
    (key : String) :
    objGet (objSet o k v) key = if key = k then some v else objGet o key := by
  induction o with
  | nil =>
    simp only [objSet, objGet]
    by_cases h : k = key
    · subst h; simp
    · rw [if_neg h, if_neg (fun hh => h hh.symm)]
  | cons e t ih =>
    obtain ⟨a, b⟩ := e
    simp only [objSet]
    by_cases hak : a = k
    · subst hak
      simp only [if_pos rfl, objGet]
      by_cases hk : a = key
      · subst hk; simp
      · rw [if_neg hk, if_neg (fun hh : key = a => hk hh.symm),
          if_neg hk]
    · rw [if_neg hak]
      simp only [objGet]
      by_cases hakey : a = key
      · subst hakey
        rw [if_pos rfl, if_pos rfl,
          if_neg (fun hh : a = k => hak hh)]
      · rw [if_neg hakey, if_neg hakey, ih]

theorem objSet_objSet_same {α : Type} (o : Obj α) (k : String) (v w : α) :
    objSet (objSet o k v) k w = objSet o k w := by
  induction o with
  | nil => simp [objSet]
  | cons e t ih =>
    obtain ⟨a, b⟩ := e
    by_cases hak : a = k
    · simp [objSet, hak]
    · simp [objSet, hak, ih]

theorem objGet_foldl_objSet {α : Type} (l : List (String × α))
    (acc : Obj α) (p : String) :
    objGet (l.foldl (fun a e => objSet a e.1 e.2) acc) p
      = (objGet l.reverse p).orElse (fun _ => objGet acc p) := by
  induction l using List.reverseRecOn generalizing acc with
  | nil => simp [objGet, Option.orElse]
  | append_singleton t e ih =>
    obtain ⟨q, m⟩ := e
    rw [List.foldl_append]
    simp only [List.foldl_cons, List.foldl_nil, List.reverse_append,
      List.reverse_cons, List.reverse_nil, List.nil_append,
      List.singleton_append]
    rw [objGet_objSet]
    simp only [objGet]
    by_cases hpq : p = q
    · subst hpq
      rw [if_pos rfl, if_pos rfl]
      rfl
    · rw [if_neg hpq, if_neg (fun hh : q = p => hpq hh.symm)]
      exact ih acc

theorem filter_self_idem {α : Type} (p : α → Bool) (l : List α) :
    (l.filter p).filter p = l.filter p := by
  induction l with
  | nil => rfl
  | cons a t ih =>
    by_cases h : p a = true
    · simp [List.filter, h, ih]
    · simp only [List.filter, Bool.eq_false_iff.mpr h, ih]

/-! ## Claim C1: equality-gated emissions of the mutators -/

/-- A store whose `values` already hold `a = 1`, used to exercise
re-writes that do not change the state. -/
def stValuesA1 : StoreState :=
  { values := [("a", JSVal.prim (JSPrim.num 1))], properties := [],
    errors := [], schema := none }

/-- C1, counterexample: `set({a: 1})` on a store whose `values` are
already exactly `{a: 1}` leaves the values sub-state unchanged and
nevertheless emits on `"values"` — `set` is not equality-gated, so the
claim that every mutator emits only on an actual change is false. -/
theorem set_emits_without_change :
    (FormStore.set stValuesA1 [("a", JSVal.prim (JSPrim.num 1))]).1.values
        = stValuesA1.values
      ∧ (FormStore.set stValuesA1 [("a", JSVal.prim (JSPrim.num 1))]).2 ≠ []
      ∧ (FormStore.set stValuesA1 [("a", JSVal.prim (JSPrim.num 1))]).2
        = [Event.valuesE [("a", JSVal.prim (JSPrim.num 1))]] := by
  refine ⟨by decide, by decide, rfl⟩

/-- C1 (amended): `setField`, `setFieldMeta` and `setErrors` emit only
when their equality gate reports a change (`setField` under `!==` on the
field's current value, `setFieldMeta` and `setErrors` under the shallow
structural comparison), and a call that re-writes an equal value is a
complete no-op; `set`, by contrast, emits the delta on `"values"` on
every call, changed or not. -/
theorem mutator_emissions_equality_gated :
    (∀ (st : StoreState) (f : String) (v : JSVal) (sv : FormStore.SV),
        jsEq (FormStore.jsIndex st.values f) v = true →
        FormStore.setField st f v sv = (none, st, []))
      ∧ (∀ (st : StoreState) (f : String) (v : JSVal) (sv : FormStore.SV),
          (FormStore.setField st f v sv).2.2 ≠ [] →
          jsEq (FormStore.jsIndex st.values f) v = false)
      ∧ (∀ (st : StoreState) (f p : String) (v : JSVal),
          shallowEqualObjects (FormStore.metaValueAt st f p) v = true →
          FormStore.setFieldMeta st f p v = (st, []))
      ∧ (∀ (st : StoreState) (f p : String) (v : JSVal),
          (FormStore.setFieldMeta st f p v).2 ≠ [] →
          shallowEqualObjects (FormStore.metaValueAt st f p) v = false)
      ∧ (∀ (st : StoreState) (e : Obj String),
          shallowEqualStrMap st.errors e = true →
          FormStore.setErrors st e = (st, []))
      ∧ (∀ (st : StoreState) (e : Obj String),
          (FormStore.setErrors st e).2 ≠ [] →
          shallowEqualStrMap st.errors e = false)
      ∧ (∀ (st : StoreState) (nv : Obj JSVal),
          (FormStore.set st nv).2 = [Event.valuesE nv]) := by
  refine ⟨?_, ?_, ?_, ?_, ?_, ?_, ?_⟩
  · intro st f v sv h
    simp [FormStore.setField, h]
  · intro st f v sv h
    cases hg : jsEq (FormStore.jsIndex st.values f) v with
    | false => rfl
    | true => exact absurd (by simp [FormStore.setField, hg]) h
  · intro st f p v h
    simp [FormStore.setFieldMeta, h]
  · intro st f p v h
    cases hg : shallowEqualObjects (FormStore.metaValueAt st f p) v with
    | false => rfl
    | true => exact absurd (by simp [FormStore.setFieldMeta, hg]) h
  · intro st e h
    simp [FormStore.setErrors, h]
  · intro st e h
    cases hg : shallowEqualStrMap st.errors e with
    | false => rfl
    | true => exact absurd (by simp [FormStore.setErrors, hg]) h
  · intro st nv
    rfl

/-- C1, witness: re-setting field `a` of `stValuesA1` to its current
value `1` satisfies the gate and is a complete no-op. -/
theorem mutator_emissions_equality_gated_witness :
    jsEq (FormStore.jsIndex stValuesA1.values "a")
        (JSVal.prim (JSPrim.num 1)) = true
      ∧ FormStore.setField stValuesA1 "a" (JSVal.prim (JSPrim.num 1))
          (FormStore.SV.flag true) = (none, stValuesA1, []) :=
  ⟨by decide,
   mutator_emissions_equality_gated.1 stValuesA1 "a"
     (JSVal.prim (JSPrim.num 1)) (FormStore.SV.flag true) (by decide)⟩

/-! ## Claim C2: `on`'s unsubscribe handles -/

/-- C2, counterexample: registering the same callback function (id `0`)
twice under topic `"t"` and invoking the unsubscribe handle of the
first registration removes both registrations — the handle filters by
function identity, so the second registration does not survive as the
claim requires. -/
theorem unsub_removes_duplicate_registrations :
    objGet (Bus.unsub (Bus.onCb (Bus.onCb ([] : Bus.Handlers) "t" 0) "t" 0)
        "t" 0) "t" = some []
      ∧ objGet (Bus.unsub (Bus.onCb (Bus.onCb ([] : Bus.Handlers) "t" 0)
        "t" 0) "t" 0) "t" ≠ some [0] := by
  refine ⟨by decide, by decide⟩

/-- C2 (amended): each `on(topic, cb)` call appends its own registration
(the same function registered twice is listed — and hence invoked —
twice), but the returned unsubscribe handle removes **every**
registration of that callback function from the topic, not only the one
made by that call; calling a handle twice is a no-op, never an error. -/
theorem on_unsub_spec :
    (∀ (h : Bus.Handlers) (n : String) (c : Nat),
        objGet (Bus.onCb h n c) n = some (((objGet h n).getD []) ++ [c]))
      ∧ (∀ (h : Bus.Handlers) (n : String) (c : Nat),
          objGet (Bus.unsub h n c) n
            = some (((objGet h n).getD []).filter (fun i => i != c)))
      ∧ (∀ (h : Bus.Handlers) (n : String) (c : Nat),
          Bus.unsub (Bus.unsub h n c) n c = Bus.unsub h n c) := by
  refine ⟨?_, ?_, ?_⟩
  · intro h n c
    simp [Bus.onCb, objGet_objSet]
  · intro h n c
    simp [Bus.unsub, objGet_objSet]
  · intro h n c
    show objSet (Bus.unsub h n c) n _ = _
    rw [show objGet (Bus.unsub h n c) n
        = some (((objGet h n).getD []).filter (fun i => i != c)) from by
      simp [Bus.unsub, objGet_objSet]]
    simp only [Option.getD_some]
    rw [filter_self_idem]
    exact objSet_objSet_same h n _ _

/-! ## Claims C3-C6: the validation pipeline -/

/-- C3: when the validator rejects with an ordered `inner` list of
`{path, message}` sub-errors, `validate()` resolves to the reduction of
that list into a path-to-message map (a repeated path keeps the last
message of the list: the lookup equals a lookup in the reversed list),
the store's errors become that exact map unless it is shallow-equal to
the current one, and exactly one `"errors"` emission with that map
occurs unless the equality gate suppresses it. -/
theorem validate_reduces_rejection_last_wins :
    ∀ (st : StoreState) (sch : SchemaObj) (vf : Obj JSVal → VOutcome)
      (inner : List (String × String)),
      st.schema = some sch → sch.validate = some vf →
      vf st.values = VOutcome.fail (some inner) →
      (FormStore.validate st).1 = some (FormStore.reduceErrors inner)
        ∧ (FormStore.validate st).2.1.errors
          = (if shallowEqualStrMap st.errors (FormStore.reduceErrors inner)
             then st.errors else FormStore.reduceErrors inner)
        ∧ (FormStore.validate st).2.2
          = (if shallowEqualStrMap st.errors (FormStore.reduceErrors inner)
             then ([] : List Event)
             else [Event.errorsE (FormStore.reduceErrors inner)])
        ∧ ∀ p : String,
            objGet (FormStore.reduceErrors inner) p = objGet inner.reverse p := by
  intro st sch vf inner hs hv ho
  have hval : FormStore.validate st
      = (some (FormStore.reduceErrors inner),
         (if shallowEqualStrMap st.errors (FormStore.reduceErrors inner)
          then st else { st with errors := FormStore.reduceErrors inner }),
         (if shallowEqualStrMap st.errors (FormStore.reduceErrors inner)
          then ([] : List Event)
          else [Event.errorsE (FormStore.reduceErrors inner)])) := by
    by_cases hg : shallowEqualStrMap st.errors (FormStore.reduceErrors inner)
        = true
    · simp [FormStore.validate, hs, hv, ho, FormStore.setErrors, hg]
    · simp [FormStore.validate, hs, hv, ho, FormStore.setErrors, hg]
  refine ⟨by rw [hval], ?_, by rw [hval], ?_⟩
  · rw [hval]
    by_cases hg : shallowEqualStrMap st.errors (FormStore.reduceErrors inner)
        = true
    · simp [hg]
    · simp [hg]
  · intro p
    have h := objGet_foldl_objSet inner ([] : Obj String) p
    rw [FormStore.reduceErrors, h]
    cases objGet inner.reverse p <;> rfl

/-- The P3 validator: it rejects every value set with the sub-errors
`[{path: "a", message: "required"}, {path: "b", message: "too long"}]`. -/
def schP3 : SchemaObj :=
  ⟨some (fun _ => VOutcome.fail (some [("a", "required"), ("b", "too long")]))⟩

/-- A store holding the P3 validator and no errors yet. -/
def stP3 : StoreState :=
  { values := [], properties := [], errors := [], schema := some schP3 }

/-- C3, witness: on the P3 store, `validate()` resolves to
`{a: "required", b: "too long"}` and emits exactly that map on
`"errors"`. -/
theorem validate_reduces_rejection_last_wins_witness :
    stP3.schema = some schP3
      ∧ (FormStore.validate stP3).1
        = some (FormStore.reduceErrors [("a", "required"), ("b", "too long")])
      ∧ (FormStore.validate stP3).1 = some [("a", "required"), ("b", "too long")]
      ∧ (FormStore.validate stP3).2.2
        = [Event.errorsE [("a", "required"), ("b", "too long")]] := by
  have h := validate_reduces_rejection_last_wins stP3 schP3
    (fun _ => VOutcome.fail (some [("a", "required"), ("b", "too long")]))
    [("a", "required"), ("b", "too long")] rfl rfl rfl
  refine ⟨rfl, h.1, ?_, ?_⟩
  · rw [h.1]; decide
  · rw [h.2.2.1]; decide

/-- C4: when the schema's validation succeeds, `validate()` resolves to
the empty error map, the errors map ends up empty, and a `"errors"`
emission of `{}` happens if and only if the errors map was previously
non-empty. -/
theorem validate_success_clears_errors :
    ∀ (st : StoreState) (sch : SchemaObj) (vf : Obj JSVal → VOutcome),
      st.schema = some sch → sch.validate = some vf →
      vf st.values = VOutcome.ok →
      (FormStore.validate st).1 = some []
        ∧ (FormStore.validate st).2.1.errors = []
        ∧ (FormStore.validate st).2.2
          = (if st.errors = [] then ([] : List Event) else [Event.errorsE []]) := by
  intro st sch vf hs hv ho
  cases hE : st.errors with
  | nil =>
    refine ⟨?_, ?_, ?_⟩ <;>
      simp [FormStore.validate, hs, hv, ho, hE]
  | cons hd tl =>
    have hg : shallowEqualStrMap (hd :: tl) [] = false := rfl
    refine ⟨?_, ?_, ?_⟩ <;>
      simp [FormStore.validate, hs, hv, ho, hE, FormStore.setErrors, hg]

/-- A validator that accepts every value set. -/
def schOk : SchemaObj := ⟨some (fun _ => VOutcome.ok)⟩

/-- A store with a pre-existing error entry and the accepting
validator. -/
def stP4 : StoreState :=
  { values := [("a", JSVal.prim (JSPrim.str "x"))], properties := [],
    errors := [("a", "required")], schema := some schOk }

/-- C4, witness: on `stP4` (non-empty errors), a successful validation
resolves to `{}`, clears the errors and emits `{}` on `"errors"`. -/
theorem validate_success_clears_errors_witness :
    stP4.schema = some schOk
      ∧ (FormStore.validate stP4).1 = some []
      ∧ (FormStore.validate stP4).2.1.errors = []
      ∧ (FormStore.validate stP4).2.2 = [Event.errorsE []] := by
  have h := validate_success_clears_errors stP4 schOk (fun _ => VOutcome.ok)
    rfl rfl rfl
  refine ⟨rfl, h.1, h.2.1, ?_⟩
  rw [h.2.2]; decide

/-- C5: with a schema and validation capability present, `validate()`
always settles with an error map — a validator rejection is recovered by
the `try`/`catch` spanning the awaited call and converted into the map,
never re-thrown to the caller (hence `setField`/`set` never observe a
failure); and a rejection whose failure object lacks the `inner` list is
treated as zero field errors: the resolved map is empty. -/
theorem validate_recovers_rejection :
    ∀ (st : StoreState) (sch : SchemaObj) (vf : Obj JSVal → VOutcome),
      st.schema = some sch → sch.validate = some vf →
      (FormStore.validate st).1.isSome = true
        ∧ (vf st.values = VOutcome.fail none →
            (FormStore.validate st).1 = some []
              ∧ (FormStore.validate st).2.1.errors = []
              ∧ (FormStore.validate st).2.2
                = (if st.errors = [] then ([] : List Event)
                   else [Event.errorsE []])) := by
  intro st sch vf hs hv
  constructor
  · cases ho : vf st.values with
    | ok =>
      by_cases hl : st.errors.length ≠ 0 <;>
        simp [FormStore.validate, hs, hv, ho, hl]
    | fail inner =>
      by_cases hg : shallowEqualStrMap st.errors
          (FormStore.reduceErrors (inner.getD [])) = true <;>
        simp [FormStore.validate, hs, hv, ho, hg]
  · intro ho
    cases hE : st.errors with
    | nil =>
      refine ⟨?_, ?_, ?_⟩ <;>
        simp [FormStore.validate, hs, hv, ho, hE, FormStore.reduceErrors,
          shallowEqualStrMap]
    | cons hd tl =>
      have hg : shallowEqualStrMap (hd :: tl) [] = false := rfl
      refine ⟨?_, ?_, ?_⟩ <;>
        simp [FormStore.validate, hs, hv, ho, hE, FormStore.setErrors, hg,
          FormStore.reduceErrors]

/-- A validator that rejects with a failure object carrying no `inner`
list (a malformed validation result). -/
def schMalformed : SchemaObj := ⟨some (fun _ => VOutcome.fail none)⟩

/-- A store with one pre-existing error and the malformed-rejecting
validator. -/
def stC5 : StoreState :=
  { values := [], properties := [],
    errors := [("a", "old")], schema := some schMalformed }

/-- C5, witness: on `stC5` the malformed rejection settles to the empty
map, the errors clear, and `{}` is emitted (errors were previously
non-empty). -/
theorem validate_recovers_rejection_witness :
    stC5.schema = some schMalformed
      ∧ (FormStore.validate stC5).1.isSome = true
      ∧ (FormStore.validate stC5).1 = some []
      ∧ (FormStore.validate stC5).2.2 = [Event.errorsE []] := by
  have h := validate_recovers_rejection stC5 schMalformed
    (fun _ => VOutcome.fail none) rfl rfl
  have h2 := h.2 rfl
  refine ⟨rfl, h.1, h2.1, ?_⟩
  rw [h2.2.2]; decide

/-- C6: when no schema is set, or the schema lacks the validation
capability, `validate()` resolves to nothing, leaves the whole store
state (errors included) unchanged and emits nothing. -/
theorem validate_noop_without_capability :
    ∀ st : StoreState, st.schema.bind SchemaObj.validate = none →
      FormStore.validate st = (none, st, []) := by
  intro st h
  cases hs : st.schema with
  | none => simp [FormStore.validate, hs]
  | some sch =>
    cases hv : sch.validate with
    | none => simp [FormStore.validate, hs, hv]
    | some vf =>
      rw [hs] at h
      have h2 : sch.validate = none := h
      rw [hv] at h2
      exact Option.noConfusion h2

/-- A store whose schema object is present but lacks the `validate`
capability. -/
def stC6 : StoreState :=
  { values := [("a", JSVal.prim (JSPrim.num 2))], properties := [],
    errors := [("a", "stale")], schema := some ⟨none⟩ }

/-- C6, witness: on `stC6` (schema without a validation capability),
`validate()` returns nothing and changes nothing. -/
theorem validate_noop_without_capability_witness :
    stC6.schema.bind SchemaObj.validate = none
      ∧ FormStore.validate stC6 = (none, stC6, []) :=
  ⟨rfl, validate_noop_without_capability stC6 rfl⟩

/-! ## Claim C7: emission snapshot semantics -/

theorem runCbs_log {π : Type} (effect : Nat → π → Bus.Handlers → Bus.Handlers)
    (data : π) (l : List Nat) (h : Bus.Handlers) :
    (Bus.runCbs effect data l h).2 = l.map (fun cb => (cb, data)) := by
  induction l generalizing h with
  | nil => rfl
  | cons cb rest ih =>
    simp only [Bus.runCbs, List.map_cons, List.cons.injEq, true_and]
    exact ih _

/-- C7: an emission invokes exactly the callbacks registered on the
topic at the moment it begins, in registration order, each with the
payload — whatever the callbacks do to the handlers while running
(unsubscribing themselves or others, subscribing): the invocation log is
the pre-read snapshot for **every** possible callback effect. An
emission on a topic with no registered callbacks invokes nothing and
leaves the handlers untouched. -/
theorem emit_snapshot_semantics :
    ∀ (π : Type) (effect : Nat → π → Bus.Handlers → Bus.Handlers)
      (h : Bus.Handlers) (n : String) (d : π),
      (Bus.emitRun effect h n d).2
          = ((objGet h n).getD []).map (fun cb => (cb, d))
        ∧ ((objGet h n).getD [] = [] → Bus.emitRun effect h n d = (h, [])) := by
  intro π effect h n d
  refine ⟨runCbs_log effect d _ h, ?_⟩
  intro hempty
  rw [Bus.emitRun, hempty]
  rfl

/-- A callback behaviour for the witness: every callback, when invoked,
unsubscribes itself from topic `"t"` (the payload is ignored). -/
def selfUnsub : Nat → Nat → Bus.Handlers → Bus.Handlers :=
  fun cb _ h => Bus.unsub h "t" cb

/-- The handlers state with callbacks `1` and `2` registered on `"t"`. -/
def busC7 : Bus.Handlers := Bus.onCb (Bus.onCb ([] : Bus.Handlers) "t" 1) "t" 2

/-- C7, witness: even though each callback unsubscribes itself while the
emission runs, both registered callbacks are invoked, in order, with the
payload; and an emission on an empty handlers map is a no-op. -/
theorem emit_snapshot_semantics_witness :
    (Bus.emitRun selfUnsub busC7 "t" 0).2
        = ((objGet busC7 "t").getD []).map (fun cb => (cb, 0))
      ∧ (Bus.emitRun selfUnsub busC7 "t" 0).2 = [(1, 0), (2, 0)]
      ∧ Bus.emitRun selfUnsub ([] : Bus.Handlers) "t" 0
        = (([] : Bus.Handlers), []) := by
  refine ⟨(emit_snapshot_semantics Nat selfUnsub busC7 "t" 0).1, ?_, ?_⟩
  · rw [(emit_snapshot_semantics Nat selfUnsub busC7 "t" 0).1]
    decide
  · exact (emit_snapshot_semantics Nat selfUnsub ([] : Bus.Handlers) "t" 0).2 rfl

/-! ## Claim C8: `setField` validates before invoking the hook -/

theorem validate_trace_shape (st : StoreState) :
    (FormStore.validate st).2.2 = []
      ∨ ∃ e, (FormStore.validate st).2.2 = [Event.errorsE e] := by
  cases hs : st.schema with
  | none => exact Or.inl (by simp [FormStore.validate, hs])
  | some sch =>
    cases hv : sch.validate with
    | none => exact Or.inl (by simp [FormStore.validate, hs, hv])
    | some vf =>
      cases ho : vf st.values with
      | ok =>
        by_cases hl : st.errors.length ≠ 0
        · by_cases hg : shallowEqualStrMap st.errors [] = true
          · exact Or.inl (by
              simp [FormStore.validate, hs, hv, ho, hl,
                FormStore.setErrors, hg])
          · exact Or.inr ⟨[], by
              simp [FormStore.validate, hs, hv, ho, hl,
                FormStore.setErrors, hg]⟩
        · exact Or.inl (by simp [FormStore.validate, hs, hv, ho, hl])
      | fail inner =>
        by_cases hg : shallowEqualStrMap st.errors
            (FormStore.reduceErrors (inner.getD [])) = true
        · exact Or.inl (by simp [FormStore.validate, hs, hv, ho, hg])
        · exact Or.inr ⟨FormStore.reduceErrors (inner.getD []), by
            simp [FormStore.validate, hs, hv, ho, FormStore.setErrors, hg]⟩

/-- C8: when `setField(field, value, shouldValidate)` is called with a
genuinely new value and a function-typed `shouldValidate`, the full
`validate()` pass runs on the written state and settles first — its
emissions precede everything the hook sees — and only then is the hook
invoked, exactly once, as the final event, with `{value, error, meta}`
read from the post-validation state. -/
theorem setField_validates_before_hook :
    ∀ (st : StoreState) (f : String) (v : JSVal) (cb : Nat),
      jsEq (FormStore.jsIndex st.values f) v = false →
      FormStore.setField st f v (FormStore.SV.fn cb)
          = (some (FormStore.fieldResultAfter st f v),
             FormStore.validatedState st f v,
             Event.valuesE [(f, v)]
               :: ((FormStore.validate (FormStore.writeValue st f v)).2.2
                 ++ [Event.hookE cb (FormStore.fieldResultAfter st f v)]))
        ∧ ∀ e ∈ (FormStore.validate (FormStore.writeValue st f v)).2.2,
            Event.isHook e = false := by
  intro st f v cb hg
  constructor
  · simp only [FormStore.setField, hg, Bool.false_eq_true, if_false,
      FormStore.svTruthy, if_true]
    rfl
  · intro e he
    rcases validate_trace_shape (FormStore.writeValue st f v) with h | ⟨em, h⟩
    · rw [h] at he
      exact absurd he (List.not_mem_nil e)
    · rw [h] at he
      rw [List.mem_singleton.mp he]
      rfl

/-- A validator rejecting with a single sub-error on field `a`. -/
def schC8 : SchemaObj :=
  ⟨some (fun _ => VOutcome.fail (some [("a", "bad")]))⟩

/-- An empty store carrying `schC8`. -/
def stC8 : StoreState :=
  { values := [], properties := [], errors := [], schema := some schC8 }

/-- C8, witness: on `stC8`, `setField("a", "x", hook 9)` emits the value
delta, then the `"errors"` emission of the validation pass, and finally
invokes the hook with the post-validation error `"bad"`. -/
theorem setField_validates_before_hook_witness :
    jsEq (FormStore.jsIndex stC8.values "a") (JSVal.prim (JSPrim.str "x"))
        = false
      ∧ FormStore.setField stC8 "a" (JSVal.prim (JSPrim.str "x"))
          (FormStore.SV.fn 9)
        = (some (FormStore.fieldResultAfter stC8 "a"
             (JSVal.prim (JSPrim.str "x"))),
           FormStore.validatedState stC8 "a" (JSVal.prim (JSPrim.str "x")),
           Event.valuesE [("a", JSVal.prim (JSPrim.str "x"))]
             :: ((FormStore.validate (FormStore.writeValue stC8 "a"
                   (JSVal.prim (JSPrim.str "x")))).2.2
               ++ [Event.hookE 9 (FormStore.fieldResultAfter stC8 "a"
                   (JSVal.prim (JSPrim.str "x")))]))
      ∧ (FormStore.setField stC8 "a" (JSVal.prim (JSPrim.str "x"))
          (FormStore.SV.fn 9)).2.2
        = [Event.valuesE [("a", JSVal.prim (JSPrim.str "x"))],
           Event.errorsE [("a", "bad")],
           Event.hookE 9 ⟨JSVal.prim (JSPrim.str "x"), some "bad", none⟩] := by
  refine ⟨by decide,
    (setField_validates_before_hook stC8 "a" (JSVal.prim (JSPrim.str "x")) 9
      (by decide)).1, ?_⟩
  rw [(setField_validates_before_hook stC8 "a" (JSVal.prim (JSPrim.str "x")) 9
    (by decide)).1]
  decide

/-! ## Claim C9: the getters return fresh shallow copies -/

theorem readRef_alloc {α : Type} (h : Heap α) (c : Obj α) :
    Heap.readRef (Heap.alloc h c).1 (Heap.alloc h c).2 = c := by
  show ((h.objs ++ [c])[h.objs.length]?).getD [] = c
  rw [List.getElem?_concat_length]
  rfl

theorem readRef_alloc_old {α : Type} (h : Heap α) (c : Obj α) (r : Nat)
    (hr : r < h.objs.length) :
    Heap.readRef (Heap.alloc h c).1 r = Heap.readRef h r := by
  show ((h.objs ++ [c])[r]?).getD [] = (h.objs[r]?).getD []
  rw [List.getElem?_append_left hr]

theorem readRef_writeRef_ne {α : Type} (h : Heap α) (r s : Nat) (o : Obj α)
    (hne : r ≠ s) :
    Heap.readRef (Heap.writeRef h r o) s = Heap.readRef h s := by
  show ((h.objs.set r o)[s]?).getD [] = (h.objs[s]?).getD []
  rw [List.getElem?_set_ne hne]

/-- C9: `get`, `getErrors` and `getProperties` are each
`() => ({ ...m })` on their internal map `m`; in the heap model this is
`getOp`. For any heap and any live internal reference: the returned
reference is fresh (distinct from the internal one), holds the same
shallow contents, and adding, reassigning or removing a top-level key on
it leaves the internal object untouched — a subsequent `getOp` still
returns the original unmodified contents. -/
theorem getters_return_fresh_shallow_copies :
    ∀ (α : Type) (h : Heap α) (rv : Nat), rv < h.objs.length →
      ∀ (k : String) (v : α),
        (Heap.getOp h rv).2 ≠ rv
          ∧ Heap.readRef (Heap.getOp h rv).1 (Heap.getOp h rv).2
            = Heap.readRef h rv
          ∧ Heap.readRef
              (Heap.setKey (Heap.getOp h rv).1 (Heap.getOp h rv).2 k v) rv
            = Heap.readRef h rv
          ∧ Heap.readRef
              (Heap.delKey (Heap.getOp h rv).1 (Heap.getOp h rv).2 k) rv
            = Heap.readRef h rv
          ∧ Heap.readRef
              (Heap.getOp
                (Heap.setKey (Heap.getOp h rv).1 (Heap.getOp h rv).2 k v)
                rv).1
              (Heap.getOp
                (Heap.setKey (Heap.getOp h rv).1 (Heap.getOp h rv).2 k v)
                rv).2
            = Heap.readRef h rv := by
  intro α h rv hrv k v
  have hfresh : (Heap.getOp h rv).2 ≠ rv := Nat.ne_of_gt hrv
  have hcopy : Heap.readRef (Heap.getOp h rv).1 (Heap.getOp h rv).2
      = Heap.readRef h rv := readRef_alloc h _
  have hset : Heap.readRef
      (Heap.setKey (Heap.getOp h rv).1 (Heap.getOp h rv).2 k v) rv
      = Heap.readRef h rv := by
    rw [Heap.setKey, readRef_writeRef_ne _ _ _ _ hfresh]
    exact readRef_alloc_old h _ rv hrv
  have hdel : Heap.readRef
      (Heap.delKey (Heap.getOp h rv).1 (Heap.getOp h rv).2 k) rv
      = Heap.readRef h rv := by
    rw [Heap.delKey, readRef_writeRef_ne _ _ _ _ hfresh]
    exact readRef_alloc_old h _ rv hrv
  refine ⟨hfresh, hcopy, hset, hdel, ?_⟩
  exact (readRef_alloc _ _).trans hset

/-- A one-object heap for the witness: the internal `values` map
`{a: 1}` lives at reference `0`. -/
def heapC9 : Heap JSVal := ⟨[[("a", JSVal.prim (JSPrim.num 1))]]⟩

/-- C9, witness: on `heapC9`, the copy returned by `getOp` is a fresh
reference with equal contents, and reassigning key `a` on it leaves the
internal object — and what a second `getOp` returns — unchanged. -/
theorem getters_return_fresh_shallow_copies_witness :
    (0 : Nat) < heapC9.objs.length
      ∧ (Heap.getOp heapC9 0).2 ≠ 0
      ∧ Heap.readRef (Heap.getOp heapC9 0).1 (Heap.getOp heapC9 0).2
        = Heap.readRef heapC9 0
      ∧ Heap.readRef
          (Heap.setKey (Heap.getOp heapC9 0).1 (Heap.getOp heapC9 0).2 "a"
            (JSVal.prim (JSPrim.num 2))) 0
        = Heap.readRef heapC9 0 :=
  ⟨by decide,
   (getters_return_fresh_shallow_copies JSVal heapC9 0 (by decide) "a"
      (JSVal.prim (JSPrim.num 2))).1,
   (getters_return_fresh_shallow_copies JSVal heapC9 0 (by decide) "a"
      (JSVal.prim (JSPrim.num 2))).2.1,
   (getters_return_fresh_shallow_copies JSVal heapC9 0 (by decide) "a"
      (JSVal.prim (JSPrim.num 2))).2.2.1⟩

/-! ## Claim C10: the field projection hides falsy values behind `""` -/

/-- C10: the field-level projection exposes `value.current || ""`: the
exposed `value` is the empty string exactly on the six falsy JavaScript
values (`undefined`, `null`, `NaN`, `false`, `0`, `""`), while the
actual cached value remains reachable only through the `ref` handle —
so the exposed `value` cannot distinguish an unset field (`undefined`)
from a field set to `0` or to `false`. -/
theorem field_projection_masks_falsy_values :
    ∀ v : JSVal,
      (jsTruthy v = false ↔
          (v = .prim .undef ∨ v = .prim .jsNull ∨ v = .prim .nan
            ∨ v = .prim (.bool false) ∨ v = .prim (.num 0)
            ∨ v = .prim (.str "")))
        ∧ (jsTruthy v = false →
            (useFormField v).value = .prim (.str "")
              ∧ (useFormField v).ref = v)
        ∧ (useFormField (.prim .undef)).value
            = (useFormField (.prim (.num 0))).value
        ∧ (useFormField (.prim (.num 0))).value
            = (useFormField (.prim (.bool false))).value := by
  intro v
  refine ⟨?_, ?_, rfl, rfl⟩
  · constructor
    · intro hf
      cases v with
      | obj i fs => exact absurd hf (by simp [jsTruthy])
      | prim p =>
        cases p with
        | undef => exact Or.inl rfl
        | jsNull => exact Or.inr (Or.inl rfl)
        | nan => exact Or.inr (Or.inr (Or.inl rfl))
        | bool b =>
          have hb : b = false := by simpa [jsTruthy, truthyPrim] using hf
          exact Or.inr (Or.inr (Or.inr (Or.inl (by rw [hb]))))
        | num n =>
          have hn : n = 0 := by simpa [jsTruthy, truthyPrim] using hf
          exact Or.inr (Or.inr (Or.inr (Or.inr (Or.inl (by rw [hn])))))
        | str s =>
          have hs : s = "" := by simpa [jsTruthy, truthyPrim] using hf
          exact Or.inr (Or.inr (Or.inr (Or.inr (Or.inr (by rw [hs])))))
    · intro hf
      rcases hf with h | h | h | h | h | h <;> subst h <;> rfl
  · intro hf
    constructor
    · simp [useFormField, hf]
    · rfl

/-- C10, witness: a field whose cached value is the falsy number `0` is
exposed as `""` while its `ref` still carries `0`. -/
theorem field_projection_masks_falsy_values_witness :
    jsTruthy (JSVal.prim (JSPrim.num 0)) = false
      ∧ (useFormField (JSVal.prim (JSPrim.num 0))).value
        = JSVal.prim (JSPrim.str "")
      ∧ (useFormField (JSVal.prim (JSPrim.num 0))).ref
        = JSVal.prim (JSPrim.num 0) := by
  have h := (field_projection_masks_falsy_values
    (JSVal.prim (JSPrim.num 0))).2.1 (by decide)
  exact ⟨by decide, h.1, h.2⟩
